import Mathlib

/-!
Verification of the qutest orchestrator (src/main.go, second snapshot,
lines 248-746) against its natural-language specification.

Go strings are modelled as lists of characters (`Str`); Go's byte-wise
lexicographic ordering on UTF-8 strings coincides with the code-point-wise
ordering used here, because UTF-8 is order-preserving. For
`longestCommonPrefix`, which indexes raw bytes and rebuilds its result with
`string(last[i])`, a `Str` is read as the string's UTF-8 byte sequence (one
byte value per list element, each below 256): the sort order and the element
equality of the loop are then exactly Go's byte-wise ones, and the
byte-to-rune re-encoding the output performs is modelled explicitly by
`reEncodeByte`. Go `int32` arithmetic
(the atomic stats counters) is modelled on `Int` with an explicit wrap at
2^32. External collaborators (the filesystem glob walker, esbuild, the JSON
codec, the browser driver) are parameters of the corresponding definitions,
as the spec itself treats them as black boxes.
-/

namespace Qutest

abbrev Str := List Char

def strOf (s : String) : Str := s.toList

def strLe : Str → Str → Bool
  | [], _ => true
  | _ :: _, [] => false
  | a :: as, b :: bs => if a < b then true else if b < a then false else strLe as bs

def strLeP (a b : Str) : Prop := strLe a b = true

instance : DecidableRel strLeP := fun a b => by unfold strLeP; infer_instance

def sortStrings (l : List Str) : List Str := List.insertionSort strLeP l

/-- Go's `string(b)` for one byte b (main.go:416, `string(last[i])`): the
byte value is converted as a code point, whose UTF-8 encoding is one byte
for b < 0x80 and two bytes (a 0xC2 or 0xC3 lead, then a continuation byte)
for 0x80 <= b < 0x100. Elements of `Str` here stand for bytes, so the result is
again a byte list. -/
def reEncodeByte (c : Char) : Str :=
  if c.toNat < 128 then [c]
  else [Char.ofNat (192 + c.toNat / 64), Char.ofNat (128 + c.toNat % 64)]

/-- The re-encoding `longestPrefix += string(last[i])` applies byte by
byte over a whole byte sequence. -/
def reEncodeStr : Str → Str
  | [] => []
  | c :: cs => reEncodeByte c ++ reEncodeStr cs

/-- The loop of `longestCommonPrefix` (main.go:414-420) over byte lists:
walk `first`, appending `string(last[i])` — the re-encoding of the matched
byte — while the two agree; the `endPrefix` flag makes the loop a no-op
past the first mismatch, and short-circuit `&&` also stops indexing `last`
there. `none` models the index-out-of-range panic that would occur when
`last` is exhausted while every previous byte matched. -/
def goLCP : Str → Str → Option Str
  | [], _ => some []
  | _ :: _, [] => none
  | f :: fs, l :: ls =>
    if l = f then (goLCP fs ls).map (reEncodeByte l ++ ·) else some []

def commonPrefix : Str → Str → Str
  | a :: as, b :: bs => if a = b then a :: commonPrefix as bs else []
  | _, _ => []

def longestCommonPrefix (vs : List Str) : Option Str :=
  if vs.length > 0 then
    let s := sortStrings vs
    goLCP (s.getD 0 []) (s.getD (s.length - 1) [])
  else some []

def longestCommonPrefixMut (vs : List Str) : Option Str × List Str :=
  if vs.length > 0 then
    (goLCP ((sortStrings vs).getD 0 []) ((sortStrings vs).getD ((sortStrings vs).length - 1) []),
     sortStrings vs)
  else (some [], vs)

/-- Arbitrary JSON values, modelling the Go `interface{}` fields of an
assertion error (main.go 461-462). -/
inductive Jval where
  | null : Jval
  | boolean : Bool → Jval
  | num : Int → Jval
  | str : Str → Jval
  | arr : List Jval → Jval
  | obj : List (Str × Jval) → Jval

/-- main.go 447-453: the anonymous TestCounts struct of qunitRunEnd. Counts
are Go `int`, modelled as unbounded Int (64-bit overflow is out of reach of
any JSON payload a test framework emits; the int32 truncation at the stats
counters is modelled explicitly below). -/
structure TestCounts where
  Passed : Int
  Failed : Int
  Skipped : Int
  Todo : Int
  Total : Int

/-- main.go 459-465: one assertion failure record. -/
structure AssertionError where
  Passed : Bool
  Actual : Jval
  Expected : Jval
  Stack : Str
  Todo : Bool

/-- main.go 454-466: one test case detail record. -/
structure TestDetail where
  Name : Str
  FullName : List Str
  Runtime : Int
  Status : Str
  Errors : List AssertionError

/-- main.go 443-467: the runEnd payload schema. -/
structure qunitRunEnd where
  FullName : List Str
  Runtime : Int
  Status : Str
  TestCounts : TestCounts
  Tests : List TestDetail

/-- main.go 469-473: the result of one completed job. `runtime` is the
host-measured wall clock in nanoseconds (a Go time.Duration). -/
structure runTestResult where
  path : Str
  runEnd : qunitRunEnd
  runtime : Nat

/-- main.go 475-477. -/
def runTestResult.Pass (r : runTestResult) : Bool := r.runEnd.Status == strOf "passed"

/-- main.go 479-483: the default ANSI color values (the NO_COLOR toggle of
main.go 485-493 is excluded by the spec's scope). -/
def colorDim : Str := strOf "\x1b[37m"

def colorBold : Str := strOf "\x1b[1m"

def colorGreen : Str := strOf "\x1b[32m"

def colorRed : Str := strOf "\x1b[31m"

def colorReset : Str := strOf "\x1b[0m"

/-- Truncation of a Go `int` to `int32`, which is also the wraparound of
int32 arithmetic: the two's-complement representative in [-2^31, 2^31). -/
def wrap32 (x : Int) : Int := (x + 2 ^ 31) % 2 ^ 32 - 2 ^ 31

/-- main.go 688-689: `atomic.AddInt32(&counter, int32(v))`. The Go int is
truncated to int32 and added with 32-bit wraparound. -/
def addInt32 (cur v : Int) : Int := wrap32 (cur + wrap32 v)

/-- main.go 668-671: the shared stats struct (two int32 counters). -/
structure batchStats where
  fail : Int
  pass : Int

/-- main.go 504-523 as seen by the dispatcher: the external browser
environment (`env`) either fails the job with a navigation or session error
(`none`) or delivers the decoded run-end payload with the job's measured
wall-clock runtime; the result carries the job's own path. -/
def runJob (env : Str → Option (qunitRunEnd × Nat)) (p : Str) : Option runTestResult :=
  (env p).map fun x => { path := p, runEnd := x.1, runtime := x.2 }

/-- main.go 678-691: one dispatched goroutine's effect. A failed job is
logged and emits nothing; a completed one adds its counts to the shared
stats via atomic.AddInt32 and sends its result on the results channel. -/
def jobStep (env : Str → Option (qunitRunEnd × Nat)) (s : batchStats) (p : Str) :
    batchStats × Option runTestResult :=
  match runJob env p with
  | none => (s, none)
  | some r =>
    ({ fail := addInt32 s.fail r.runEnd.TestCounts.Failed,
       pass := addInt32 s.pass r.runEnd.TestCounts.Passed }, some r)

/-- main.go 659-695: dispatch one job per element of `tests` and collect
the final stats and the stream of completed results. Completion order under
concurrency is scheduler-dependent; the model processes jobs in dispatch
order, and the order-sensitive claims below are stated up to permutation. -/
def runBatchGo (env : Str → Option (qunitRunEnd × Nat)) :
    batchStats → List runTestResult → List Str → batchStats × List runTestResult
  | s, acc, [] => (s, acc)
  | s, acc, p :: ts =>
    runBatchGo env (jobStep env s p).1 (acc ++ (jobStep env s p).2.toList) ts

def runBatch (env : Str → Option (qunitRunEnd × Nat)) (tests : List Str) :
    batchStats × List runTestResult :=
  runBatchGo env { fail := 0, pass := 0 } [] tests

/-- main.go 673-692: `wg.Add(len(tests))` and one goroutine per element of
`tests`; each goroutine ends in exactly one of two ways (a logged job-level
error, or a completed result), so the batch yields exactly one outcome per
element, each tied to that element's path. -/
def dispatchOutcomes (env : Str → Option (qunitRunEnd × Nat)) (tests : List Str) :
    List (Str × Option runTestResult) :=
  tests.map fun p => (p, runJob env p)

/-- main.go 525-535: `merge` computes the total length, allocates, and
appends every slice in order — plain concatenation, no deduplication. -/
def merge {α : Type} (v : List (List α)) : List α :=
  v.foldl (fun final a => final ++ a) []

/-- One entry visited by the external doublestar.GlobWalk walker. -/
structure dirEntry where
  path : Str
  isDir : Bool
  isRegular : Bool

/-- main.go 572-583: the walk callback's exclude check — any exclude glob
matching the path drops it (`m` is the external doublestar.Match). -/
def excludedBy (m : Str → Str → Bool) (excludes : List Str) (p : Str) : Bool :=
  excludes.any fun ex => m ex p

/-- main.go 571-588: the matches one include pattern contributes: the
entries the external walker visits for that pattern, minus excluded paths
(an excluded directory makes the callback return fs.SkipDir, which prunes
the subtree inside the external walker), keeping regular files only. -/
def patternMatches (m : Str → Str → Bool) (excludes : List Str) (walk : List dirEntry) : List Str :=
  (walk.filter fun d => !excludedBy m excludes d.path && d.isRegular).map fun d => d.path

/-- main.go 537-599: `findTests` globs every include pattern concurrently
and merges the per-pattern match lists. The results-channel receive order
is scheduler-dependent; the model collects in pattern order (every real
order is a permutation of this one). `walkOf` gives the external walker's
visited entries per pattern. -/
def findTests (includeGlobs excludes : List Str) (m : Str → Str → Bool)
    (walkOf : Str → List dirEntry) : List Str :=
  merge (includeGlobs.map fun pat => patternMatches m excludes (walkOf pat))

/-- main.go 299. -/
def defaultInclude : List Str :=
  [strOf "**/*.js", strOf "**/*.ts", strOf "**/*.jsx", strOf "**/*.tsx"]

/-- main.go 317-329: the parsed CLI configuration. Timeout is a Go
time.Duration (int64 nanoseconds). -/
structure args where
  Root : Str
  Include : List Str
  Exclude : List Str
  ESBuild : Str
  Coverage : Bool
  Timeout : Int
  Parallel : Int
  Watch : Bool
  Visible : Bool
  KeepRunning : Bool
  Port : Int

/-- main.go 603-709, the batch phase after flag parsing: default include
patterns (611-613), discovery, the in-place sort performed by
longestCommonPrefix on the discovered list (654), and the dispatch of one
job per element. The source never reads a.Timeout after parsing — no
context.WithTimeout or deadline exists anywhere in run — so no deadline
parameter appears on the right-hand side. -/
def runExecution (a : args) (m : Str → Str → Bool) (walkOf : Str → List dirEntry)
    (env : Str → Option (qunitRunEnd × Nat)) : batchStats × List runTestResult :=
  let includeGlobs := if a.Include.isEmpty then defaultInclude else a.Include
  let tests := findTests includeGlobs a.Exclude m walkOf
  runBatch env (longestCommonPrefixMut tests).2

/-- The two ways the HARNESS_RUN_END handler (main.go 508-514) can end:
log.Fatal (process termination) or a send on the completion channel. -/
inductive captureOutcome where
  | fatal : Str → captureOutcome
  | send : Str → qunitRunEnd → captureOutcome

/-- Whether the capture outcome terminates the whole process. -/
def captureOutcome.terminatesProcess : captureOutcome → Bool
  | .fatal _ => true
  | .send _ _ => false

/-- Whether the external JSON decode succeeded. -/
def parseOk : Except Str qunitRunEnd → Bool
  | .ok _ => true
  | .error _ => false

/-- main.go 508-514: the body of the HARNESS_RUN_END binding handler.
`unmarshal` is the external encoding/json decoder for the qunitRunEnd
schema. A decode error reaches log.Fatal, which terminates the whole
process; a decoded payload is sent on the per-run completion channel. -/
def harnessRunEnd (unmarshal : Str → Except Str qunitRunEnd) (path payload : Str) :
    captureOutcome :=
  match unmarshal payload with
  | .error e => .fatal (strOf "expected error decoding runEnd JSON:" ++ e)
  | .ok re => .send path re

/-- strings.TrimPrefix (main.go:496). -/
def trimPrefix (s pre : Str) : Str := if pre.isPrefixOf s then s.drop pre.length else s

/-- time.Duration.Truncate(time.Millisecond) on nanoseconds. -/
def truncMs (d : Nat) : Nat := d - d % 1000000

/-- One decimal digit character. -/
def digitChar : Nat → Char
  | 0 => '0'
  | 1 => '1'
  | 2 => '2'
  | 3 => '3'
  | 4 => '4'
  | 5 => '5'
  | 6 => '6'
  | 7 => '7'
  | 8 => '8'
  | 9 => '9'
  | _ => '*'

/-- Decimal digits with explicit fuel (structural recursion so that the
kernel can evaluate it; the fuel never runs out when it starts at n). -/
def natDigitsGo : Nat → Nat → Str
  | 0, n => [digitChar n]
  | fuel + 1, n =>
    if n < 10 then [digitChar n] else natDigitsGo fuel (n / 10) ++ [digitChar (n % 10)]

/-- Decimal digits of a natural number, most significant first. -/
def natDigits (n : Nat) : Str := natDigitsGo n n

/-- fmt's %d rendering of a Go int: optional minus sign, then decimal
digits. -/
def intStr (i : Int) : Str := if i < 0 then '-' :: natDigits i.natAbs else natDigits i.toNat

/-- One fmt.Fprintf argument: %s (string), %d (integer), %v (here always a
time.Duration, pre-rendered by the external Duration.String). -/
inductive fmtArg where
  | s : Str → fmtArg
  | d : Int → fmtArg
  | v : Str → fmtArg

/-- The fragment of fmt.Fprintf the reporter uses: substitute %s, %d and %v
verbs left to right, copy every other character. -/
def applyFmt : Str → List fmtArg → Str
  | '%' :: 's' :: rest, fmtArg.s x :: as => x ++ applyFmt rest as
  | '%' :: 'd' :: rest, fmtArg.d x :: as => intStr x ++ applyFmt rest as
  | '%' :: 'v' :: rest, fmtArg.v x :: as => x ++ applyFmt rest as
  | c :: rest, as => c :: applyFmt rest as
  | [], _ => []

/-- main.go 495-502: the per-result report line. `durStr` is the external
time.Duration.String renderer, applied to the runtime truncated to
milliseconds. -/
def WriteResult (durStr : Nat → Str) (r : runTestResult) (pre : Str) : Str :=
  let path := trimPrefix r.path pre
  if r.Pass then
    applyFmt (strOf "%s✓ %d pass %v %s%s\n")
      [fmtArg.s colorGreen, fmtArg.d r.runEnd.TestCounts.Passed,
       fmtArg.v (durStr (truncMs r.runtime)), fmtArg.s path, fmtArg.s colorReset]
  else
    applyFmt (strOf "%s✗ %d fail %v %s%s\n")
      [fmtArg.s colorRed, fmtArg.d r.runEnd.TestCounts.Failed,
       fmtArg.v (durStr (truncMs r.runtime)), fmtArg.s path, fmtArg.s colorReset]

/-- main.go 702-708: the final summary, a dim separator line then the bold
overall pass or fail line, chosen by the fail counter. `elapsed` is the
externally rendered msSince(binStart). -/
def finalSummary (s : batchStats) (elapsed : Str) : Str :=
  applyFmt (strOf "%s--\n") [fmtArg.s colorDim] ++
  (if s.fail = 0 then
    applyFmt (strOf "%s%s✓ %d pass %s%s\n")
      [fmtArg.s colorBold, fmtArg.s colorGreen, fmtArg.d s.pass,
       fmtArg.s elapsed, fmtArg.s colorReset]
  else
    applyFmt (strOf "%s%s✗ %d fail %s%s\n")
      [fmtArg.s colorBold, fmtArg.s colorRed, fmtArg.d s.fail,
       fmtArg.s elapsed, fmtArg.s colorReset])

/-- main.go 702-709: after the completion barrier, run prints the final
summary and then returns nil unconditionally (line 709) — the stats take no
part in the returned error. -/
def runSummaryAndReturn (s : batchStats) (elapsed : Str) : Str × Option Str :=
  (finalSummary s elapsed, none)

/-- main.go 712-717: main exits 1 when run returns a non-nil error and 0
otherwise. -/
def mainExitCode : Option Str → Nat
  | some _ => 1
  | none => 0

/-- One esbuild build error message (external type, payload opaque). -/
structure buildMessage where
  Text : Str

/-- One esbuild output file. -/
structure outputFile where
  Contents : Str

/-- The external esbuild api.Build result, as the handler consumes it. -/
structure esbBuildResult where
  Errors : List buildMessage
  OutputFiles : List outputFile

/-- An HTTP response as the /bundle/ handler writes it: status (200 when
WriteHeader is never called), optional content-type header, body bytes. -/
structure httpResponse where
  status : Nat
  contentType : Option Str
  body : Str

/-- main.go 359-373: the /bundle/ handler. `build` is the external esbuild
entry point, `encodeErrors` the external indented JSON encoder, `jsType`
the platform's mime.TypeByExtension(".js"). `none` models the index panic
that would occur if esbuild reported no errors and no output files. -/
def bundleHandler (build : Str → esbBuildResult) (encodeErrors : List buildMessage → Str)
    (jsType : Str) (src : Str) : Option httpResponse :=
  let result := build src
  if result.Errors.length > 0 then
    some { status := 500, contentType := none, body := encodeErrors result.Errors }
  else
    result.OutputFiles.head?.map fun f =>
      { status := 200, contentType := some jsType, body := f.Contents }

/-- A run-end payload reporting one passed assertion, for concrete runs. -/
def passRunEnd : qunitRunEnd :=
  { FullName := [], Runtime := 4, Status := strOf "passed",
    TestCounts := { Passed := 1, Failed := 0, Skipped := 0, Todo := 0, Total := 1 },
    Tests := [] }

/-- A run-end payload reporting one failed assertion, for concrete runs. -/
def failRunEnd : qunitRunEnd :=
  { FullName := [], Runtime := 4, Status := strOf "failed",
    TestCounts := { Passed := 0, Failed := 1, Skipped := 0, Todo := 0, Total := 1 },
    Tests := [] }

/-- An environment in which every job completes with one failing assertion. -/
def failEnv : Str → Option (qunitRunEnd × Nat) := fun _ => some (failRunEnd, 5000000)

/-- A run-end payload with an arbitrary failed-assertion count. -/
def failCountRunEnd (f : Int) : qunitRunEnd :=
  { FullName := [], Runtime := 4, Status := strOf "failed",
    TestCounts := { Passed := 0, Failed := f, Skipped := 0, Todo := 0, Total := f },
    Tests := [] }

/-- An environment whose four jobs report failed-assertion counts that each
fit int32 but sum to 2^32 exactly. -/
def overflowEnv : Str → Option (qunitRunEnd × Nat) := fun p =>
  if p = strOf "a" ∨ p = strOf "b" then some (failCountRunEnd 2147483647, 1)
  else some (failCountRunEnd 1, 1)

/-- The four dispatched paths of the overflow scenario. -/
def overflowTests : List Str := [strOf "a", strOf "b", strOf "c", strOf "d"]

/-- A decoder that always succeeds with the passing payload. -/
def okUnmarshal : Str → Except Str qunitRunEnd := fun _ => Except.ok passRunEnd

/-- A glob matcher that matches nothing (no excludes apply). -/
def matchNone : Str → Str → Bool := fun _ _ => false

/-- A walker that visits the single regular file a.js for every pattern. -/
def walkOne : Str → List dirEntry :=
  fun _ => [{ path := strOf "a.js", isDir := false, isRegular := true }]

/-- A parsed configuration whose Timeout is zero. -/
def argsTimeout0 : args :=
  { Root := strOf ".", Include := [strOf "*.js"], Exclude := [], ESBuild := strOf "",
    Coverage := false, Timeout := 0, Parallel := 8, Watch := false, Visible := false,
    KeepRunning := false, Port := 0 }

/-- A duration renderer for concrete witnesses. -/
def sampleDur : Nat → Str := fun _ => strOf "5ms"

/-- A completed passing result for concrete witnesses. -/
def samplePassResult : runTestResult :=
  { path := strOf "src/a.js", runEnd := passRunEnd, runtime := 5000000 }

/-- An esbuild stub that always succeeds with one output file. -/
def buildOk : Str → esbBuildResult :=
  fun _ => { Errors := [], OutputFiles := [{ Contents := strOf "bundled" }] }

/-- An esbuild stub that always fails with one error. -/
def buildBad : Str → esbBuildResult :=
  fun _ => { Errors := [{ Text := strOf "boom" }], OutputFiles := [] }

/-- A JSON error encoder stub. -/
def encZero : List buildMessage → Str := fun _ => strOf "[]"

/-- The UTF-8 bytes of "é/x.js" (é is 0xC3 0xA9), one byte per element. -/
def accentPathX : Str :=
  [Char.ofNat 195, Char.ofNat 169, '/', 'x', '.', 'j', 's']

/-- The UTF-8 bytes of "é/y.js". -/
def accentPathY : Str :=
  [Char.ofNat 195, Char.ofNat 169, '/', 'y', '.', 'j', 's']

/-- The bytes longestCommonPrefix actually returns for the two accented
paths: 0xC3 0xA9 0x2F re-encoded byte-for-byte, i.e. the bytes of the
string Ã©/ — not those of é/. -/
def accentMangled : Str :=
  [Char.ofNat 195, Char.ofNat 131, Char.ofNat 194, Char.ofNat 169, '/']

-- Theorems begin here.

theorem strLe_refl (s : Str) : strLe s s = true := by
  induction s with
  | nil => rfl
  | cons a as ih => simp [strLe, ih]

theorem strLe_total_bool : ∀ a b : Str, strLe a b = true ∨ strLe b a = true := by
  intro a
  induction a with
  | nil => intro b; left; rfl
  | cons x xs ih =>
    intro b
    cases b with
    | nil => right; rfl
    | cons y ys =>
      rcases lt_trichotomy x y with h | h | h
      · left; simp [strLe, h]
      · subst h
        rcases ih ys with h2 | h2
        · left; simp [strLe, h2]
        · right; simp [strLe, h2]
      · right; simp [strLe, h]

theorem strLe_cons_iff (a b : Char) (as bs : Str) :
    strLe (a :: as) (b :: bs) = true ↔ a < b ∨ (a = b ∧ strLe as bs = true) := by
  simp only [strLe]
  rcases lt_trichotomy a b with h | h | h
  · simp [h]
  · subst h
    simp [lt_irrefl]
  · simp [h, asymm h, (ne_of_gt h)]

theorem strLe_trans_bool :
    ∀ a b c : Str, strLe a b = true → strLe b c = true → strLe a c = true := by
  intro a
  induction a with
  | nil => intro b c _ _; rfl
  | cons x xs ih =>
    intro b c hab hbc
    cases b with
    | nil => simp [strLe] at hab
    | cons y ys =>
      cases c with
      | nil => simp [strLe] at hbc
      | cons z zs =>
        rw [strLe_cons_iff] at hab hbc ⊢
        rcases hab with hxy | ⟨hxy, hxy2⟩
        · rcases hbc with hyz | ⟨hyz, _⟩
          · exact Or.inl (lt_trans hxy hyz)
          · subst hyz; exact Or.inl hxy
        · subst hxy
          rcases hbc with hyz | ⟨hyz, hyz2⟩
          · exact Or.inl hyz
          · subst hyz; exact Or.inr ⟨rfl, ih ys zs hxy2 hyz2⟩

theorem goLCP_eq_commonPrefix :
    ∀ a b : Str, strLe a b = true →
      goLCP a b = some (reEncodeStr (commonPrefix a b)) := by
  intro a
  induction a with
  | nil => intro b _; rfl
  | cons f fs ih =>
    intro b hab
    cases b with
    | nil => simp [strLe] at hab
    | cons l ls =>
      rw [strLe_cons_iff] at hab
      rcases hab with hlt | ⟨heq, hrest⟩
      · have hne : l ≠ f := (ne_of_gt hlt)
        have hne2 : f ≠ l := (ne_of_lt hlt)
        simp [goLCP, commonPrefix, reEncodeStr, hne, hne2]
      · subst heq
        simp [goLCP, commonPrefix, reEncodeStr, ih ls hrest]

theorem commonPrefix_sandwich :
    ∀ a b c : Str, strLe a b = true → strLe b c = true → commonPrefix a c <+: b := by
  intro a
  induction a with
  | nil => intro b c _ _; exact List.nil_prefix
  | cons x xs ih =>
    intro b c hab hbc
    cases c with
    | nil =>
      show commonPrefix (x :: xs) [] <+: b
      exact List.nil_prefix
    | cons z zs =>
      cases b with
      | nil => simp [strLe] at hab
      | cons y ys =>
        rw [strLe_cons_iff] at hab hbc
        by_cases hxz : x = z
        · have hxy : x = y ∧ strLe xs ys = true := by
            rcases hab with hlt | h
            · exfalso
              rcases hbc with hlt2 | ⟨heq2, _⟩
              · exact absurd (lt_trans hlt hlt2) (by rw [hxz]; exact lt_irrefl z)
              · exact absurd hlt (by rw [hxz, heq2]; exact lt_irrefl z)
            · exact h
          have hyz2 : strLe ys zs = true := by
            rcases hbc with hlt2 | h
            · exfalso
              rw [← hxz, ← hxy.1] at hlt2
              exact absurd hlt2 (lt_irrefl x)
            · exact h.2
          have hcp : commonPrefix (x :: xs) (z :: zs) = x :: commonPrefix xs zs := by
            simp [commonPrefix, hxz]
          rw [hcp]
          exact List.cons_prefix_cons.mpr ⟨hxy.1, ih ys zs hxy.2 hyz2⟩
        · have hcp : commonPrefix (x :: xs) (z :: zs) = [] := by
            simp [commonPrefix, hxz]
          rw [hcp]
          exact List.nil_prefix

theorem commonPrefix_meet :
    ∀ q a b : Str, q <+: a → q <+: b → q <+: commonPrefix a b := by
  intro q
  induction q with
  | nil => intro a b _ _; exact List.nil_prefix
  | cons h t ih =>
    intro a b hqa hqb
    cases a with
    | nil => exact absurd (List.eq_nil_of_prefix_nil hqa) (by simp)
    | cons a0 as =>
      cases b with
      | nil => exact absurd (List.eq_nil_of_prefix_nil hqb) (by simp)
      | cons b0 bs =>
        rcases List.cons_prefix_cons.mp hqa with ⟨rfl, hta⟩
        rcases List.cons_prefix_cons.mp hqb with ⟨rfl, htb⟩
        simp only [commonPrefix, if_pos rfl]
        exact List.cons_prefix_cons.mpr ⟨rfl, ih as bs hta htb⟩

theorem getD_last_mem : ∀ s : List Str, s ≠ [] → s.getD (s.length - 1) [] ∈ s := by
  intro s
  induction s with
  | nil => intro h; exact absurd rfl h
  | cons a t ih =>
    intro _
    cases t with
    | nil => simp [List.getD]
    | cons b t' =>
      have : (a :: b :: t').getD ((a :: b :: t').length - 1) [] =
          (b :: t').getD ((b :: t').length - 1) [] := by
        simp [List.getD]
      rw [this]
      exact List.mem_cons_of_mem a (ih (by simp))

theorem sorted_head_le (s : List Str) (hs : List.Sorted strLeP s) :
    ∀ v ∈ s, strLeP (s.getD 0 []) v := by
  cases s with
  | nil => intro v hv; exact absurd hv (by simp)
  | cons a t =>
    intro v hv
    rcases List.mem_cons.mp hv with rfl | hvt
    · exact strLe_refl v
    · exact List.rel_of_sorted_cons hs v hvt

theorem sorted_le_last :
    ∀ s : List Str, List.Sorted strLeP s → ∀ v ∈ s, strLeP v (s.getD (s.length - 1) []) := by
  intro s
  induction s with
  | nil => intro _ v hv; exact absurd hv (by simp)
  | cons a t ih =>
    intro hs v hv
    cases t with
    | nil =>
      rcases List.mem_cons.mp hv with rfl | hvt
      · exact strLe_refl v
      · exact absurd hvt (by simp)
    | cons b t' =>
      have hlast : (a :: b :: t').getD ((a :: b :: t').length - 1) [] =
          (b :: t').getD ((b :: t').length - 1) [] := by
        simp [List.getD]
      rw [hlast]
      rcases List.mem_cons.mp hv with rfl | hvt
      · exact List.rel_of_sorted_cons hs _ (getD_last_mem (b :: t') (by simp))
      · exact ih (List.Sorted.of_cons hs) v hvt

theorem sortStrings_perm (vs : List Str) : (sortStrings vs).Perm vs :=
  List.perm_insertionSort strLeP vs

theorem sortStrings_sorted (vs : List Str) : List.Sorted strLeP (sortStrings vs) :=
  @List.sorted_insertionSort Str strLeP _ ⟨strLe_total_bool⟩ ⟨strLe_trans_bool⟩ vs

theorem getD_zero_mem : ∀ s : List Str, s ≠ [] → s.getD 0 [] ∈ s := by
  intro s h
  cases s with
  | nil => exact absurd rfl h
  | cons a t => simp [List.getD]

/-- C10: longestCommonPrefix is total and never indexes out of range: for
every input list the none branch of goLCP (which models the would-be
last[i] index-out-of-range panic) is unreachable, because after sorting the
lexicographically first element can only run past the end of the last
element if the last is a proper prefix of the first, contradicting
sortedness. -/
theorem longestCommonPrefix_total (vs : List Str) :
    (longestCommonPrefix vs).isSome = true := by
  unfold longestCommonPrefix
  by_cases h : vs.length > 0
  · rw [if_pos h]
    have hne : sortStrings vs ≠ [] := by
      apply List.ne_nil_of_length_pos
      rw [(sortStrings_perm vs).length_eq]
      exact h
    have hmem := getD_last_mem (sortStrings vs) hne
    have hle := sorted_head_le (sortStrings vs) (sortStrings_sorted vs) _ hmem
    rw [goLCP_eq_commonPrefix _ _ hle]
    rfl
  · rw [if_neg h]
    rfl

theorem reEncodeStr_ascii : ∀ p : Str, (∀ c ∈ p, c.toNat < 128) → reEncodeStr p = p := by
  intro p
  induction p with
  | nil => intro _; rfl
  | cons c cs ih =>
    intro h
    have hc : c.toNat < 128 := h c (List.mem_cons_self c cs)
    simp only [reEncodeStr, reEncodeByte, if_pos hc, List.singleton_append, List.cons.injEq,
      true_and]
    exact ih fun d hd => h d (List.mem_cons_of_mem c hd)

/-- C5 (counterexample): for the two byte sequences of "é/x.js" and
"é/y.js" the function matches the common bytes 0xC3 0xA9 0x2F but returns
their byte-for-byte rune re-encoding 0xC3 0x83 0xC2 0xA9 0x2F ("Ã©/"),
which is a prefix of neither input — refuting the claim that the return
value is the longest string that is a prefix of every element. -/
theorem longestCommonPrefix_mangles_counterexample :
    longestCommonPrefix [accentPathX, accentPathY] = some accentMangled ∧
    ¬ accentMangled <+: accentPathX ∧ ¬ accentMangled <+: accentPathY :=
  ⟨by decide, by decide, by decide⟩

/-- C5 (amended): for every non-empty list the sort-then-compare loop
identifies exactly the longest common byte prefix p of all elements — the
longest string that is a prefix of every element — but returns its
byte-by-byte rune re-encoding reEncodeStr p (main.go:416 appends
string(last[i])), which coincides with p itself whenever every byte of p is
ASCII. -/
theorem longestCommonPrefix_spec (vs : List Str) (hne : vs ≠ []) :
    ∃ p : Str, longestCommonPrefix vs = some (reEncodeStr p) ∧
      (∀ v ∈ vs, p <+: v) ∧
      (∀ q : Str, (∀ v ∈ vs, q <+: v) → q <+: p) ∧
      ((∀ c ∈ p, c.toNat < 128) → reEncodeStr p = p) := by
  have hlen : vs.length > 0 := List.length_pos.mpr hne
  have hsne : sortStrings vs ≠ [] := by
    apply List.ne_nil_of_length_pos
    rw [(sortStrings_perm vs).length_eq]
    exact hlen
  have hsorted := sortStrings_sorted vs
  have hlastmem := getD_last_mem (sortStrings vs) hsne
  have hfirstmem := getD_zero_mem (sortStrings vs) hsne
  have hfl := sorted_head_le (sortStrings vs) hsorted _ hlastmem
  refine ⟨commonPrefix ((sortStrings vs).getD 0 [])
      ((sortStrings vs).getD ((sortStrings vs).length - 1) []), ?_, ?_, ?_, ?_⟩
  · unfold longestCommonPrefix
    rw [if_pos hlen, goLCP_eq_commonPrefix _ _ hfl]
  · intro v hv
    have hvs : v ∈ sortStrings vs := ((sortStrings_perm vs).mem_iff).mpr hv
    exact commonPrefix_sandwich _ v _
      (sorted_head_le (sortStrings vs) hsorted v hvs)
      (sorted_le_last (sortStrings vs) hsorted v hvs)
  · intro q hq
    exact commonPrefix_meet q _ _
      (hq _ (((sortStrings_perm vs).mem_iff).mp hfirstmem))
      (hq _ (((sortStrings_perm vs).mem_iff).mp hlastmem))
  · exact reEncodeStr_ascii _

/-- Witness for C5's amended theorem at a concrete input: two ASCII paths
sharing the prefix "src/". -/
theorem longestCommonPrefix_spec_witness :
    ∃ p : Str, longestCommonPrefix [strOf "src/a.js", strOf "src/b.js"] = some (reEncodeStr p) ∧
      (∀ v ∈ [strOf "src/a.js", strOf "src/b.js"], p <+: v) ∧
      (∀ q : Str, (∀ v ∈ [strOf "src/a.js", strOf "src/b.js"], q <+: v) → q <+: p) ∧
      ((∀ c ∈ p, c.toNat < 128) → reEncodeStr p = p) :=
  longestCommonPrefix_spec [strOf "src/a.js", strOf "src/b.js"] (by simp [strOf])

theorem wrap32_zero : wrap32 0 = 0 := by decide

theorem wrap32_wrap32 (x : Int) : wrap32 (wrap32 x) = wrap32 x := by
  unfold wrap32
  rw [show ((2 : Int) ^ 31) = 2147483648 by norm_num,
    show ((2 : Int) ^ 32) = 4294967296 by norm_num]
  omega

theorem wrap32_add_left (a b : Int) : wrap32 (wrap32 a + b) = wrap32 (a + b) := by
  unfold wrap32
  rw [show ((2 : Int) ^ 31) = 2147483648 by norm_num,
    show ((2 : Int) ^ 32) = 4294967296 by norm_num]
  omega

theorem addInt32_foldl (vs : List Int) :
    ∀ c : Int, wrap32 c = c → vs.foldl addInt32 c = wrap32 (c + (vs.map wrap32).sum) := by
  induction vs with
  | nil => intro c hc; simp [hc]
  | cons v vs ih =>
    intro c hc
    simp only [List.foldl_cons, List.map_cons, List.sum_cons]
    rw [ih (addInt32 c v) (wrap32_wrap32 _)]
    show wrap32 (wrap32 (c + wrap32 v) + (vs.map wrap32).sum) = _
    rw [wrap32_add_left, add_assoc]

theorem runBatchGo_spec (env : Str → Option (qunitRunEnd × Nat)) :
    ∀ (tests : List Str) (s0 : batchStats) (acc : List runTestResult),
      runBatchGo env s0 acc tests
      = ({ fail := ((tests.filterMap (runJob env)).map
              fun r => r.runEnd.TestCounts.Failed).foldl addInt32 s0.fail,
           pass := ((tests.filterMap (runJob env)).map
              fun r => r.runEnd.TestCounts.Passed).foldl addInt32 s0.pass },
         acc ++ tests.filterMap (runJob env)) := by
  intro tests
  induction tests with
  | nil => intro s0 acc; simp [runBatchGo]
  | cons p ts ih =>
    intro s0 acc
    cases hr : runJob env p with
    | none =>
      simp only [runBatchGo, jobStep, hr]
      rw [ih]
      simp [List.filterMap_cons, hr]
    | some r =>
      simp only [runBatchGo, jobStep, hr]
      rw [ih]
      simp [List.filterMap_cons, hr]

theorem runBatch_results (env : Str → Option (qunitRunEnd × Nat)) (tests : List Str) :
    (runBatch env tests).2 = tests.filterMap (runJob env) := by
  unfold runBatch
  rw [runBatchGo_spec]
  simp

theorem runBatch_fail (env : Str → Option (qunitRunEnd × Nat)) (tests : List Str) :
    (runBatch env tests).1.fail =
      wrap32 (((tests.filterMap (runJob env)).map
        fun r => wrap32 r.runEnd.TestCounts.Failed).sum) := by
  unfold runBatch
  rw [runBatchGo_spec]
  show ((tests.filterMap (runJob env)).map
      fun r => r.runEnd.TestCounts.Failed).foldl addInt32 0 = _
  rw [addInt32_foldl _ 0 wrap32_zero, zero_add, List.map_map]
  rfl

theorem runBatch_pass (env : Str → Option (qunitRunEnd × Nat)) (tests : List Str) :
    (runBatch env tests).1.pass =
      wrap32 (((tests.filterMap (runJob env)).map
        fun r => wrap32 r.runEnd.TestCounts.Passed).sum) := by
  unfold runBatch
  rw [runBatchGo_spec]
  show ((tests.filterMap (runJob env)).map
      fun r => r.runEnd.TestCounts.Passed).foldl addInt32 0 = _
  rw [addInt32_foldl _ 0 wrap32_zero, zero_add, List.map_map]
  rfl

theorem batchStats_ext (a b : batchStats) (h1 : a.fail = b.fail) (h2 : a.pass = b.pass) :
    a = b := by
  cases a
  cases b
  simp_all

theorem runBatch_stats_perm (env : Str → Option (qunitRunEnd × Nat)) {ts ts' : List Str}
    (h : ts.Perm ts') : (runBatch env ts).1 = (runBatch env ts').1 := by
  have hperm := h.filterMap (runJob env)
  apply batchStats_ext
  · rw [runBatch_fail, runBatch_fail]
    exact congrArg wrap32 ((hperm.map _).sum_eq)
  · rw [runBatch_pass, runBatch_pass]
    exact congrArg wrap32 ((hperm.map _).sum_eq)

theorem merge_eq_flatten {α : Type} (v : List (List α)) : merge v = v.flatten := by
  unfold merge
  suffices h : ∀ acc : List α, v.foldl (fun final a => final ++ a) acc = acc ++ v.flatten by
    simpa using h []
  induction v with
  | nil => intro acc; simp
  | cons x xs ih => intro acc; simp [ih, List.append_assoc]

/-- C1 (code refutation): a batch whose one test reports one failing
assertion leaves the aggregate fail counter at 1, yet run returns nil after
printing the summary (main.go:709) and main therefore exits 0 — against the
claim and the repository's own TestSimpleFailure, which expects exit code 1
for tests/should_fail.js. -/
theorem run_exits_zero_despite_failure :
    (runBatch failEnv [strOf "tests/should_fail.js"]).1.fail = 1 ∧
    (runSummaryAndReturn (runBatch failEnv [strOf "tests/should_fail.js"]).1 (strOf "1s")).2
      = none ∧
    mainExitCode
      (runSummaryAndReturn (runBatch failEnv [strOf "tests/should_fail.js"]).1 (strOf "1s")).2
      = 0 :=
  ⟨by decide, rfl, rfl⟩

/-- C4 (code refutation): the parsed Timeout value never reaches execution:
runs differing only in Timeout are identical for every configuration,
matcher, walker and environment, and with Timeout 0 — which any batch
doing work at all exceeds — the whole batch still runs to completion
(its one job is dispatched and completed, nothing is cut off). -/
theorem run_ignores_timeout :
    (∀ (a : args) (t t' : Int) (m : Str → Str → Bool) (w : Str → List dirEntry)
        (env : Str → Option (qunitRunEnd × Nat)),
      runExecution { a with Timeout := t } m w env
        = runExecution { a with Timeout := t' } m w env) ∧
    (runExecution argsTimeout0 matchNone walkOne failEnv).2.length = 1 :=
  ⟨fun _ _ _ _ _ _ => rfl, by decide⟩

/-- C6: computing the DisplayPrefix never affects execution: although
longestCommonPrefix sorts the discovered slice in place before dispatch,
the multiset of dispatched paths, the aggregate stats, and the multiset of
job outcomes are identical to a run over the unsorted discovery list; only
printed names depend on the prefix. -/
theorem displayPrefix_frame (env : Str → Option (qunitRunEnd × Nat)) (tests : List Str) :
    ((longestCommonPrefixMut tests).2 : Multiset Str) = (tests : Multiset Str) ∧
    (runBatch env (longestCommonPrefixMut tests).2).1 = (runBatch env tests).1 ∧
    ((runBatch env (longestCommonPrefixMut tests).2).2 : Multiset runTestResult)
      = ((runBatch env tests).2 : Multiset runTestResult) := by
  have hperm : (longestCommonPrefixMut tests).2.Perm tests := by
    unfold longestCommonPrefixMut
    by_cases h : tests.length > 0
    · rw [if_pos h]
      exact sortStrings_perm tests
    · rw [if_neg h]
  refine ⟨Multiset.coe_eq_coe.mpr hperm, runBatch_stats_perm env hperm, ?_⟩
  rw [runBatch_results, runBatch_results]
  exact Multiset.coe_eq_coe.mpr (hperm.filterMap (runJob env))

/-- C7 (counterexample): four completed results whose failed counts each
fit int32 but sum to 2^32 leave the int32 fail counter at 0, so the
overall-pass summary line is printed although the sum of TestCounts.Failed
over the completed results is 4294967296, not 0 — the counter is not the
plain sum the claim states. -/
theorem stats_counter_overflow_counterexample :
    (runBatch overflowEnv overflowTests).1.fail = 0 ∧
    ((runBatch overflowEnv overflowTests).2.map fun r => r.runEnd.TestCounts.Failed).sum
      = 4294967296 ∧
    finalSummary (runBatch overflowEnv overflowTests).1 (strOf "0s")
      = strOf "\x1b[37m--\n\x1b[1m\x1b[32m✓ 0 pass 0s\x1b[0m\n" :=
  ⟨by decide, by decide, by decide⟩

/-- C7 (amended): the final counters are the int32-wrapped sums of the
int32-truncated per-result assertion counts over all successfully completed
results (equal to the plain sums whenever every count and every running
total fits in int32), and the final summary is the overall-pass line
exactly when the accumulated fail counter is 0, the overall-fail line
otherwise. -/
theorem run_summary_spec (env : Str → Option (qunitRunEnd × Nat)) (tests : List Str)
    (elapsed : Str) :
    (runBatch env tests).1.fail =
      wrap32 (((runBatch env tests).2.map fun r => wrap32 r.runEnd.TestCounts.Failed).sum) ∧
    (runBatch env tests).1.pass =
      wrap32 (((runBatch env tests).2.map fun r => wrap32 r.runEnd.TestCounts.Passed).sum) ∧
    ((runBatch env tests).1.fail = 0 →
      finalSummary (runBatch env tests).1 elapsed =
        colorDim ++ strOf "--\n" ++ colorBold ++ colorGreen ++ strOf "✓ "
          ++ intStr (runBatch env tests).1.pass ++ strOf " pass " ++ elapsed
          ++ colorReset ++ strOf "\n") ∧
    ((runBatch env tests).1.fail ≠ 0 →
      finalSummary (runBatch env tests).1 elapsed =
        colorDim ++ strOf "--\n" ++ colorBold ++ colorRed ++ strOf "✗ "
          ++ intStr (runBatch env tests).1.fail ++ strOf " fail " ++ elapsed
          ++ colorReset ++ strOf "\n") := by
  refine ⟨?_, ?_, ?_, ?_⟩
  · rw [runBatch_results]
    exact runBatch_fail env tests
  · rw [runBatch_results]
    exact runBatch_pass env tests
  · intro h
    simp [finalSummary, h, applyFmt, strOf, colorDim, colorBold, colorGreen, colorReset]
  · intro h
    simp [finalSummary, h, applyFmt, strOf, colorDim, colorBold, colorRed, colorReset]

/-- Witness for C7's amended theorem at a concrete failing batch: the
overall-fail summary line for one failed assertion. -/
theorem run_summary_spec_witness :
    finalSummary (runBatch failEnv [strOf "t.js"]).1 (strOf "2s") =
      colorDim ++ strOf "--\n" ++ colorBold ++ colorRed ++ strOf "✗ "
        ++ intStr (runBatch failEnv [strOf "t.js"]).1.fail ++ strOf " fail " ++ strOf "2s"
        ++ colorReset ++ strOf "\n" :=
  (run_summary_spec failEnv [strOf "t.js"] (strOf "2s")).2.2.2 (by decide)

/-- C2 (counterexample): a single discovered regular file a.js matched by
two include patterns appears twice in findTests' merged output — discovery
does not hand the dispatcher a set — and the dispatcher then emits two
outcomes for the one unique path. -/
theorem findTests_duplicates_counterexample :
    findTests [strOf "**/*.js", strOf "a*.js"] [] matchNone walkOne
      = [strOf "a.js", strOf "a.js"] ∧
    ¬ (findTests [strOf "**/*.js", strOf "a*.js"] [] matchNone walkOne).Nodup ∧
    (dispatchOutcomes failEnv
      (findTests [strOf "**/*.js", strOf "a*.js"] [] matchNone walkOne)).length = 2 :=
  ⟨by decide, by decide, by decide⟩

/-- C2 (amended): discovery concatenates per-pattern match lists without
deduplication — the dispatched list's length is the sum of the per-pattern
match counts and a path matched by several include patterns occurs once per
matching pattern — and the dispatcher emits exactly one outcome per element
of that list, each outcome tied to its own element's path. -/
theorem findTests_dispatch_spec (inc exc : List Str) (m : Str → Str → Bool)
    (w : Str → List dirEntry) (env : Str → Option (qunitRunEnd × Nat)) :
    (findTests inc exc m w).length
      = (inc.map fun pat => (patternMatches m exc (w pat)).length).sum ∧
    (∀ p : Str, (findTests inc exc m w).count p
      = (inc.map fun pat => (patternMatches m exc (w pat)).count p).sum) ∧
    (dispatchOutcomes env (findTests inc exc m w)).length = (findTests inc exc m w).length ∧
    ∀ pr ∈ dispatchOutcomes env (findTests inc exc m w), pr.2 = runJob env pr.1 := by
  refine ⟨?_, ?_, ?_, ?_⟩
  · rw [findTests, merge_eq_flatten, List.length_flatten, List.map_map]
    rfl
  · intro p
    rw [findTests, merge_eq_flatten, List.count_flatten, List.map_map]
    rfl
  · rw [dispatchOutcomes, List.length_map]
  · intro pr hpr
    rw [dispatchOutcomes] at hpr
    obtain ⟨p, _, rfl⟩ := List.mem_map.mp hpr
    rfl

/-- C3: a capture payload that the runEnd decoder rejects terminates the
whole process (the handler reaches log.Fatal), and a payload that decodes
never does — the handler then sends the decoded result for its own path. -/
theorem capture_fatal_iff_malformed (unmarshal : Str → Except Str qunitRunEnd)
    (path payload : Str) :
    (harnessRunEnd unmarshal path payload).terminatesProcess = !parseOk (unmarshal payload) ∧
    ∀ re, unmarshal payload = Except.ok re →
      harnessRunEnd unmarshal path payload = captureOutcome.send path re := by
  cases h : unmarshal payload with
  | error e =>
    refine ⟨by simp [harnessRunEnd, h, parseOk, captureOutcome.terminatesProcess], ?_⟩
    intro re hre
    exact absurd hre (by simp)
  | ok re0 =>
    refine ⟨by simp [harnessRunEnd, h, parseOk, captureOutcome.terminatesProcess], ?_⟩
    intro re hre
    obtain rfl : re0 = re := Except.ok.inj hre
    simp [harnessRunEnd, h]

theorem digitChar_ne_newline (m : Nat) : digitChar m ≠ '\n' := by
  unfold digitChar
  split <;> decide

theorem natDigitsGo_no_newline : ∀ fuel n : Nat, '\n' ∉ natDigitsGo fuel n := by
  intro fuel
  induction fuel with
  | zero =>
    intro n
    simp only [natDigitsGo, List.mem_singleton]
    exact Ne.symm (digitChar_ne_newline n)
  | succ fuel ih =>
    intro n
    simp only [natDigitsGo]
    split
    · simp only [List.mem_singleton]
      exact Ne.symm (digitChar_ne_newline n)
    · simp only [List.mem_append, List.mem_singleton]
      push_neg
      exact ⟨ih _, Ne.symm (digitChar_ne_newline _)⟩

theorem intStr_no_newline (i : Int) : '\n' ∉ intStr i := by
  unfold intStr
  split
  · simp only [List.mem_cons]
    push_neg
    exact ⟨by decide, natDigitsGo_no_newline _ _⟩
  · exact natDigitsGo_no_newline _ _

/-- C8: WriteResult prints exactly one line per completed result: the green
check mark with the passed count and the word pass when runEnd.Status is
"passed", the red cross with the failed count and the word fail otherwise,
followed by the elapsed time truncated to milliseconds and the path with
the common prefix stripped; its output holds exactly one newline, at the
end, whenever the externally rendered duration and the path hold none. -/
theorem WriteResult_spec (durStr : Nat → Str) (r : runTestResult) (pre : Str) :
    WriteResult durStr r pre =
      (if r.Pass then
        colorGreen ++ strOf "✓ " ++ intStr r.runEnd.TestCounts.Passed ++ strOf " pass "
          ++ durStr (truncMs r.runtime) ++ strOf " " ++ trimPrefix r.path pre
          ++ colorReset ++ strOf "\n"
       else
        colorRed ++ strOf "✗ " ++ intStr r.runEnd.TestCounts.Failed ++ strOf " fail "
          ++ durStr (truncMs r.runtime) ++ strOf " " ++ trimPrefix r.path pre
          ++ colorReset ++ strOf "\n") ∧
    ('\n' ∉ durStr (truncMs r.runtime) → '\n' ∉ trimPrefix r.path pre →
      (WriteResult durStr r pre).count '\n' = 1) := by
  have heq : WriteResult durStr r pre =
      (if r.Pass then
        colorGreen ++ strOf "✓ " ++ intStr r.runEnd.TestCounts.Passed ++ strOf " pass "
          ++ durStr (truncMs r.runtime) ++ strOf " " ++ trimPrefix r.path pre
          ++ colorReset ++ strOf "\n"
       else
        colorRed ++ strOf "✗ " ++ intStr r.runEnd.TestCounts.Failed ++ strOf " fail "
          ++ durStr (truncMs r.runtime) ++ strOf " " ++ trimPrefix r.path pre
          ++ colorReset ++ strOf "\n") := by
    cases hp : r.Pass with
    | false => simp [WriteResult, hp, applyFmt, strOf, colorRed, colorReset]
    | true => simp [WriteResult, hp, applyFmt, strOf, colorGreen, colorReset]
  refine ⟨heq, ?_⟩
  intro h1 h2
  rw [heq]
  cases hp : r.Pass with
  | false =>
    simp only [hp, Bool.false_eq_true, if_false, List.count_append]
    rw [List.count_eq_zero.mpr h1, List.count_eq_zero.mpr h2,
      List.count_eq_zero.mpr (intStr_no_newline _)]
    decide
  | true =>
    simp only [hp, if_true, List.count_append]
    rw [List.count_eq_zero.mpr h1, List.count_eq_zero.mpr h2,
      List.count_eq_zero.mpr (intStr_no_newline _)]
    decide

/-- C9: a /bundle/ request for which the bundler reports one or more errors
gets HTTP 500 with the JSON-encoded error array as body and no script
bytes; one for which it reports none gets the first output file's bundled
bytes with the JavaScript content type and status 200. -/
theorem bundleHandler_spec (build : Str → esbBuildResult)
    (encodeErrors : List buildMessage → Str) (jsType src : Str) :
    ((build src).Errors ≠ [] →
      bundleHandler build encodeErrors jsType src =
        some { status := 500, contentType := none, body := encodeErrors (build src).Errors }) ∧
    ((build src).Errors = [] → ∀ (f : outputFile) (rest : List outputFile),
      (build src).OutputFiles = f :: rest →
      bundleHandler build encodeErrors jsType src =
        some { status := 200, contentType := some jsType, body := f.Contents }) := by
  constructor
  · intro h
    simp [bundleHandler, List.length_pos.mpr h]
  · intro h f rest hof
    simp [bundleHandler, h, hof]

/-- Witness for C3 at a concrete decoder and payload: a payload that
decodes is sent, not fatal. -/
theorem capture_fatal_iff_malformed_witness :
    harnessRunEnd okUnmarshal (strOf "a.js") (strOf "payload")
      = captureOutcome.send (strOf "a.js") passRunEnd :=
  (capture_fatal_iff_malformed okUnmarshal (strOf "a.js") (strOf "payload")).2 passRunEnd rfl

/-- Witness for C8 at a concrete result: the printed line holds exactly one
newline. -/
theorem WriteResult_spec_witness :
    (WriteResult sampleDur samplePassResult (strOf "src/")).count '\n' = 1 :=
  (WriteResult_spec sampleDur samplePassResult (strOf "src/")).2 (by decide) (by decide)

/-- Witness for C9 at concrete bundler stubs: the error and success
responses. -/
theorem bundleHandler_spec_witness :
    bundleHandler buildBad encZero (strOf "text/javascript") (strOf "a.ts")
      = some { status := 500, contentType := none,
               body := encZero (buildBad (strOf "a.ts")).Errors } ∧
    bundleHandler buildOk encZero (strOf "text/javascript") (strOf "a.ts")
      = some { status := 200, contentType := some (strOf "text/javascript"),
               body := strOf "bundled" } :=
  ⟨(bundleHandler_spec buildBad encZero (strOf "text/javascript") (strOf "a.ts")).1
      (by simp [buildBad]),
   (bundleHandler_spec buildOk encZero (strOf "text/javascript") (strOf "a.ts")).2 rfl
      { Contents := strOf "bundled" } [] rfl⟩

/-- Witness for C2's amended theorem at a concrete pattern set: the one
dispatched outcome is tied to its own path. -/
theorem findTests_dispatch_spec_witness :
    (strOf "a.js", runJob failEnv (strOf "a.js")).2 = runJob failEnv (strOf "a.js") :=
  (findTests_dispatch_spec [strOf "*.js"] [] matchNone walkOne failEnv).2.2.2
    (strOf "a.js", runJob failEnv (strOf "a.js")) (List.Mem.head _)

end Qutest
